import Mathlib

/-!
Shallow embedding of the `useStateWithHistory` hook from
`src/CustomHook.js` (lines 119-172): a bounded-capacity, navigable
history container over an arbitrary value type `T`.

Modelling choices, kept faithful to the JavaScript source:
* The container state consists of the React state `value` (the visible
  value), the mutable `historyRef.current` list, the mutable
  `pointerRef.current` index, and the `capacity` option fixed at
  construction (line 119).
* `pointer` and `capacity` are `Int`, because the JavaScript numbers can
  go negative: `pointerRef.current = historyRef.current.length - 1`
  yields `-1` when eviction empties the log (possible when
  `capacity < 1`), and the caller may pass any capacity or index.
* JavaScript array indexing `a[i]` yields `undefined` out of range; it
  is modelled as an `Option`-valued lookup `jsGet`, with `none` playing
  `undefined`.  The visible `value` is `Option T` for the same reason:
  navigation assigns `setValue(historyRef.current[pointerRef.current])`.
  The committed values themselves have type `T` (the user's value type).
* The strict comparison `!==` on line 127 is decidable equality on `T`:
  JavaScript strict equality compares primitives by value and objects by
  reference, so `T` ranges over JavaScript values where two values are
  equal exactly when `===` holds (for objects, distinct references are
  distinct inhabitants of `T`).
* The functional-updater form of `set` (line 126) resolves
  `v(value)` to a concrete value before the equality check; `set` below
  takes the already-resolved value, as every claim does.
-/

namespace StateWithHistory

variable {T : Type}

/-- JavaScript array indexing `l[i]`: `none` (undefined) out of range. -/
def jsGet (l : List T) (i : Int) : Option T :=
  if i < 0 then none else l.get? i.toNat

/-- The container state: React `value` state, `historyRef.current`,
`pointerRef.current`, and the `capacity` option (lines 119-122). -/
structure HistoryState (T : Type) where
  value : Option T
  history : List T
  pointer : Int
  capacity : Int
deriving DecidableEq, Repr

/-- Construction (lines 119-122): `useState(defaultValue)`,
`historyRef = useRef([value])`, `pointerRef = useRef(0)`.  The
`capacity` option is recorded but not inspected: the source performs no
validation at construction. -/
def useStateWithHistory (defaultValue : T) (capacity : Int) : HistoryState T :=
  { value := some defaultValue
    history := [defaultValue]
    pointer := 0
    capacity := capacity }

/-- The eviction loop (lines 133-135):
`while (historyRef.current.length > capacity) historyRef.current.shift()`. -/
def evict (capacity : Int) : List T → List T
  | [] => []
  | x :: xs =>
    if ((x :: xs).length : Int) > capacity then evict capacity xs else x :: xs

/-- Forward-branch truncation (lines 128-130): when the pointer is not
at the last index, `historyRef.current.splice(pointerRef.current + 1)`
keeps only the entries up to and including the pointer. -/
def truncate (s : HistoryState T) : List T :=
  if s.pointer < (s.history.length : Int) - 1 then
    s.history.take (s.pointer + 1).toNat
  else s.history

/-- The `set` callback (lines 124-141), applied to the resolved value `v`:
if `history[pointer] !== v`, truncate the forward branch, push `v`,
evict down to capacity and move the pointer to the last index; in both
branches `setValue(v)`. -/
def set [DecidableEq T] (v : T) (s : HistoryState T) : HistoryState T :=
  if jsGet s.history s.pointer = some v then
    { s with value := some v }
  else
    { s with
      value := some v
      history := evict s.capacity (truncate s ++ [v])
      pointer := ((evict s.capacity (truncate s ++ [v])).length : Int) - 1 }

/-- The `back` callback (lines 143-147). -/
def back (s : HistoryState T) : HistoryState T :=
  if s.pointer ≤ 0 then s
  else
    { s with
      pointer := s.pointer - 1
      value := jsGet s.history (s.pointer - 1) }

/-- The `forward` callback (lines 149-153). -/
def forward (s : HistoryState T) : HistoryState T :=
  if s.pointer ≥ (s.history.length : Int) - 1 then s
  else
    { s with
      pointer := s.pointer + 1
      value := jsGet s.history (s.pointer + 1) }

/-- The `go` callback (lines 155-159). -/
def go (i : Int) (s : HistoryState T) : HistoryState T :=
  if i < 0 ∨ i > (s.history.length : Int) - 1 then s
  else
    { s with
      pointer := i
      value := jsGet s.history i }

/-- One operation issued by the single writer. -/
inductive Op (T : Type) where
  | commit (v : T)
  | back
  | forward
  | go (i : Int)
deriving DecidableEq, Repr

/-- Apply one operation to the container. -/
def step [DecidableEq T] (s : HistoryState T) : Op T → HistoryState T
  | Op.commit v => set v s
  | Op.back => back s
  | Op.forward => forward s
  | Op.go i => go i s

/-- Apply a sequence of operations, left to right. -/
def run [DecidableEq T] (s : HistoryState T) (ops : List (Op T)) : HistoryState T :=
  ops.foldl step s

/-- The operations that only navigate (back or forward). -/
def isNav : Op T → Bool
  | Op.back => true
  | Op.forward => true
  | _ => false

/-- A model of JavaScript object values: an object is identified by its
reference (strict equality compares references), while its payload
carries the observable contents compared by value equality.  Two
inhabitants with equal payloads and distinct references model two
distinct-but-equal objects. -/
structure JSObj where
  ref : Nat
  payload : Nat
deriving DecidableEq, Repr

/-- Value equality on object values: equal payloads, references ignored. -/
def valueEq (a b : JSObj) : Prop := a.payload = b.payload

instance (a b : JSObj) : Decidable (valueEq a b) :=
  inferInstanceAs (Decidable (a.payload = b.payload))

/-- The configuration error described by the specification. -/
inductive ConfigError where
  | invalidConfiguration
deriving DecidableEq, Repr

/-- Construction following the specification's words, for comparison
with `useStateWithHistory`: fail with InvalidConfiguration when
`capacity < 1`, returning no container; otherwise return the container
with log `[initialValue]` and cursor `0`. -/
def createSpec (defaultValue : T) (capacity : Int) :
    Except ConfigError (HistoryState T) :=
  if capacity < 1 then Except.error ConfigError.invalidConfiguration
  else Except.ok
    { value := some defaultValue
      history := [defaultValue]
      pointer := 0
      capacity := capacity }

/-- The state invariant maintained by every reachable state of a
container constructed with positive capacity: the log is non-empty and
bounded by the capacity, the pointer indexes a valid log entry, and the
visible value is the log entry at the pointer. -/
structure Inv (s : HistoryState T) : Prop where
  ne : s.history ≠ []
  lb : 0 ≤ s.pointer
  ub : s.pointer < (s.history.length : Int)
  cap_le : (s.history.length : Int) ≤ s.capacity
  val : s.value = jsGet s.history s.pointer

end StateWithHistory

namespace StateWithHistory

variable {T : Type}

theorem jsGet_last (l : List T) (h : l ≠ []) :
    jsGet l ((l.length : Int) - 1) = l.getLast? := by
  have hl : 0 < l.length := List.length_pos.mpr h
  rw [jsGet, if_neg (by omega)]
  have ht : ((l.length : Int) - 1).toNat = l.length - 1 := by omega
  rw [ht, List.get?_eq_getElem?, List.getLast?_eq_getElem?]

theorem evict_suffix (capacity : Int) (l : List T) : evict capacity l <:+ l := by
  induction l with
  | nil => exact List.suffix_refl _
  | cons x xs ih =>
    by_cases h : (((x :: xs).length : Int)) > capacity
    · rw [evict, if_pos h]
      exact ih.trans (List.suffix_cons x xs)
    · rw [evict, if_neg h]

theorem evict_length_le (capacity : Int) (hc : 0 ≤ capacity) (l : List T) :
    ((evict capacity l).length : Int) ≤ capacity := by
  induction l with
  | nil => simpa [evict] using hc
  | cons x xs ih =>
    by_cases h : (((x :: xs).length : Int)) > capacity
    · rw [evict, if_pos h]
      exact ih
    · rw [evict, if_neg h]
      omega

theorem evict_eq_of_le (capacity : Int) (l : List T)
    (h : (l.length : Int) ≤ capacity) : evict capacity l = l := by
  cases l with
  | nil => rfl
  | cons x xs => rw [evict, if_neg (by omega)]

theorem evict_ne_nil (capacity : Int) (hc : 1 ≤ capacity) (l : List T)
    (hl : l ≠ []) : evict capacity l ≠ [] := by
  induction l with
  | nil => exact absurd rfl hl
  | cons x xs ih =>
    by_cases h : (((x :: xs).length : Int)) > capacity
    · rw [evict, if_pos h]
      apply ih
      cases xs with
      | nil => exact absurd h (by simp; omega)
      | cons y ys => simp
    · rw [evict, if_neg h]
      simp

theorem evict_getLast (capacity : Int) (hc : 1 ≤ capacity) (l : List T) :
    (evict capacity l).getLast? = l.getLast? := by
  induction l with
  | nil => rfl
  | cons x xs ih =>
    by_cases h : (((x :: xs).length : Int)) > capacity
    · rw [evict, if_pos h, ih]
      cases xs with
      | nil => exact absurd h (by simp; omega)
      | cons y ys => exact List.getLast?_cons_cons.symm
    · rw [evict, if_neg h]

theorem run_nil [DecidableEq T] (s : HistoryState T) : run s [] = s := rfl

theorem run_cons [DecidableEq T] (s : HistoryState T) (op : Op T)
    (ops : List (Op T)) : run s (op :: ops) = run (step s op) ops := rfl

theorem set_capacity [DecidableEq T] (v : T) (s : HistoryState T) :
    (set v s).capacity = s.capacity := by
  rw [set]
  split <;> rfl

theorem back_capacity (s : HistoryState T) : (back s).capacity = s.capacity := by
  rw [back]
  split <;> rfl

theorem forward_capacity (s : HistoryState T) :
    (forward s).capacity = s.capacity := by
  rw [forward]
  split <;> rfl

theorem go_capacity (i : Int) (s : HistoryState T) :
    (go i s).capacity = s.capacity := by
  rw [go]
  split <;> rfl

theorem step_capacity [DecidableEq T] (s : HistoryState T) (op : Op T) :
    (step s op).capacity = s.capacity := by
  cases op with
  | commit v => exact set_capacity v s
  | back => exact back_capacity s
  | forward => exact forward_capacity s
  | go i => exact go_capacity i s

theorem run_capacity [DecidableEq T] (s : HistoryState T) (ops : List (Op T)) :
    (run s ops).capacity = s.capacity := by
  induction ops generalizing s with
  | nil => rfl
  | cons op ops ih => rw [run_cons, ih, step_capacity]

theorem inv_set [DecidableEq T] {s : HistoryState T} (hs : Inv s)
    (hc : 1 ≤ s.capacity) (v : T) : Inv (set v s) := by
  by_cases h : jsGet s.history s.pointer = some v
  · rw [set, if_pos h]
    exact ⟨hs.ne, hs.lb, hs.ub, hs.cap_le, h.symm⟩
  · rw [set, if_neg h]
    have hnil : evict s.capacity (truncate s ++ [v]) ≠ [] :=
      evict_ne_nil s.capacity hc _ (by simp)
    have hlen : 0 < (evict s.capacity (truncate s ++ [v])).length :=
      List.length_pos.mpr hnil
    refine ⟨hnil, ?_, ?_, ?_, ?_⟩
    · show (0 : Int) ≤ ((evict s.capacity (truncate s ++ [v])).length : Int) - 1
      omega
    · show ((evict s.capacity (truncate s ++ [v])).length : Int) - 1 <
        ((evict s.capacity (truncate s ++ [v])).length : Int)
      omega
    · show ((evict s.capacity (truncate s ++ [v])).length : Int) ≤ s.capacity
      exact evict_length_le s.capacity (by omega) _
    · show some v = jsGet (evict s.capacity (truncate s ++ [v]))
        (((evict s.capacity (truncate s ++ [v])).length : Int) - 1)
      rw [jsGet_last _ hnil, evict_getLast _ hc, List.getLast?_concat]

theorem inv_back {s : HistoryState T} (hs : Inv s) : Inv (back s) := by
  rw [back]
  by_cases h : s.pointer ≤ 0
  · rw [if_pos h]
    exact hs
  · rw [if_neg h]
    refine ⟨hs.ne, ?_, ?_, hs.cap_le, rfl⟩
    · show (0 : Int) ≤ s.pointer - 1
      omega
    · show s.pointer - 1 < (s.history.length : Int)
      have := hs.ub
      omega

theorem inv_forward {s : HistoryState T} (hs : Inv s) : Inv (forward s) := by
  rw [forward]
  by_cases h : s.pointer ≥ (s.history.length : Int) - 1
  · rw [if_pos h]
    exact hs
  · rw [if_neg h]
    refine ⟨hs.ne, ?_, ?_, hs.cap_le, rfl⟩
    · show (0 : Int) ≤ s.pointer + 1
      have := hs.lb
      omega
    · show s.pointer + 1 < (s.history.length : Int)
      omega

theorem inv_go {s : HistoryState T} (hs : Inv s) (i : Int) : Inv (go i s) := by
  rw [go]
  by_cases h : i < 0 ∨ i > (s.history.length : Int) - 1
  · rw [if_pos h]
    exact hs
  · rw [if_neg h]
    push_neg at h
    refine ⟨hs.ne, h.1, ?_, hs.cap_le, rfl⟩
    show i < (s.history.length : Int)
    have := h.2
    omega

theorem inv_step [DecidableEq T] {s : HistoryState T} (hs : Inv s)
    (hc : 1 ≤ s.capacity) (op : Op T) : Inv (step s op) := by
  cases op with
  | commit v => exact inv_set hs hc v
  | back => exact inv_back hs
  | forward => exact inv_forward hs
  | go i => exact inv_go hs i

theorem inv_init (d : T) (capacity : Int) (hc : 1 ≤ capacity) :
    Inv (useStateWithHistory d capacity) := by
  refine ⟨?_, ?_, ?_, ?_, ?_⟩ <;> simp [useStateWithHistory, jsGet]
  exact hc

theorem inv_run [DecidableEq T] {s : HistoryState T} (hs : Inv s)
    (hc : 1 ≤ s.capacity) (ops : List (Op T)) : Inv (run s ops) := by
  induction ops generalizing s with
  | nil => exact hs
  | cons op ops ih =>
    rw [run_cons]
    exact ih (inv_step hs hc op) (by rw [step_capacity]; exact hc)

theorem back_history (s : HistoryState T) : (back s).history = s.history := by
  rw [back]
  split <;> rfl

theorem forward_history (s : HistoryState T) :
    (forward s).history = s.history := by
  rw [forward]
  split <;> rfl

theorem go_history (i : Int) (s : HistoryState T) :
    (go i s).history = s.history := by
  rw [go]
  split <;> rfl

theorem back_val {s : HistoryState T}
    (h : s.value = jsGet s.history s.pointer) :
    (back s).value = jsGet (back s).history (back s).pointer := by
  rw [back]
  split
  · exact h
  · rfl

theorem forward_val {s : HistoryState T}
    (h : s.value = jsGet s.history s.pointer) :
    (forward s).value = jsGet (forward s).history (forward s).pointer := by
  rw [forward]
  split
  · exact h
  · rfl

theorem nav_step_history [DecidableEq T] (s : HistoryState T) (op : Op T)
    (hop : isNav op = true) : (step s op).history = s.history := by
  cases op with
  | commit v => exact absurd hop (by simp [isNav])
  | back => exact back_history s
  | forward => exact forward_history s
  | go i => exact absurd hop (by simp [isNav])

theorem nav_step_val [DecidableEq T] {s : HistoryState T} (op : Op T)
    (hop : isNav op = true) (h : s.value = jsGet s.history s.pointer) :
    (step s op).value = jsGet (step s op).history (step s op).pointer := by
  cases op with
  | commit v => exact absurd hop (by simp [isNav])
  | back => exact back_val h
  | forward => exact forward_val h
  | go i => exact absurd hop (by simp [isNav])

theorem nav_run_history [DecidableEq T] (s : HistoryState T)
    (navs : List (Op T)) (hnav : ∀ op ∈ navs, isNav op = true) :
    (run s navs).history = s.history := by
  induction navs generalizing s with
  | nil => rfl
  | cons op ops ih =>
    rw [run_cons, ih _ (fun o ho => hnav o (List.mem_cons_of_mem op ho)),
      nav_step_history s op (hnav op (List.mem_cons_self op ops))]

theorem nav_run_val [DecidableEq T] {s : HistoryState T}
    (navs : List (Op T)) (hnav : ∀ op ∈ navs, isNav op = true)
    (h : s.value = jsGet s.history s.pointer) :
    (run s navs).value = jsGet (run s navs).history (run s navs).pointer := by
  induction navs generalizing s with
  | nil => exact h
  | cons op ops ih =>
    rw [run_cons]
    exact ih (fun o ho => hnav o (List.mem_cons_of_mem op ho))
      (nav_step_val op (hnav op (List.mem_cons_self op ops)) h)

/-- Characterization of `set` when the committed value differs from the
entry at the pointer: truncate, append, evict, advance. -/
theorem set_of_ne [DecidableEq T] (v : T) (s : HistoryState T)
    (h : jsGet s.history s.pointer ≠ some v) :
    set v s =
      { s with
        value := some v
        history := evict s.capacity (truncate s ++ [v])
        pointer := ((evict s.capacity (truncate s ++ [v])).length : Int) - 1 } := by
  rw [set, if_neg h]

/-- C1 (counterexample): the claim as stated is false.  With object
values, committing a value that is value-equal but not identical to the
entry at the cursor does mutate the log: starting from a container
holding the single object with reference 0 and payload 5, committing a
distinct object with reference 1 and the same payload 5 appends a new
entry. -/
theorem claim_c1_counterexample :
    valueEq ⟨1, 5⟩ ⟨0, 5⟩ ∧
    jsGet (useStateWithHistory (⟨0, 5⟩ : JSObj) 10).history
      (useStateWithHistory (⟨0, 5⟩ : JSObj) 10).pointer = some ⟨0, 5⟩ ∧
    (set ⟨1, 5⟩ (useStateWithHistory (⟨0, 5⟩ : JSObj) 10)).history ≠
      (useStateWithHistory (⟨0, 5⟩ : JSObj) 10).history ∧
    (set ⟨1, 5⟩ (useStateWithHistory (⟨0, 5⟩ : JSObj) 10)).history =
      [⟨0, 5⟩, ⟨1, 5⟩] := by
  decide

/-- C1 (amended): if the committed value is strictly equal (identical)
to the entry currently at the cursor, `set` leaves the log and the
cursor unchanged while the visible value is set to the committed
value. -/
theorem claim_c1_amended [DecidableEq T] (s : HistoryState T) (v : T)
    (h : jsGet s.history s.pointer = some v) :
    (set v s).history = s.history ∧ (set v s).pointer = s.pointer ∧
    (set v s).value = some v := by
  rw [set, if_pos h]
  exact ⟨rfl, rfl, rfl⟩

/-- C1 (witness): the amended theorem applied to a container holding 3
with 3 committed again. -/
theorem claim_c1_witness :
    jsGet (useStateWithHistory (3 : Nat) 10).history
      (useStateWithHistory (3 : Nat) 10).pointer = some 3 ∧
    ((set 3 (useStateWithHistory (3 : Nat) 10)).history =
        (useStateWithHistory (3 : Nat) 10).history ∧
      (set 3 (useStateWithHistory (3 : Nat) 10)).pointer =
        (useStateWithHistory (3 : Nat) 10).pointer ∧
      (set 3 (useStateWithHistory (3 : Nat) 10)).value = some 3) :=
  ⟨by decide, claim_c1_amended (useStateWithHistory 3 10) 3 (by decide)⟩

/-- C2 (counterexample): the claim as stated is false.  At capacity 0
(which is below 1) the specification-side construction fails with
InvalidConfiguration, but the source construction performs no
validation: it returns a fully-initialized container with log equal to
the singleton of the initial value and cursor 0. -/
theorem claim_c2_counterexample :
    (0 : Int) < 1 ∧
    createSpec (0 : Nat) 0 = Except.error ConfigError.invalidConfiguration ∧
    useStateWithHistory (0 : Nat) 0 =
      { value := some 0, history := [0], pointer := 0, capacity := 0 } :=
  ⟨by decide, rfl, rfl⟩

/-- C2 (amended): construction never fails.  For every initial value and
every capacity, including capacity below 1, it returns the container
with log equal to the singleton of the initial value, cursor 0, the
initial value visible, and the given capacity recorded; no
InvalidConfiguration check exists in the source. -/
theorem claim_c2_amended (v : T) (capacity : Int) :
    (useStateWithHistory v capacity).history = [v] ∧
    (useStateWithHistory v capacity).pointer = 0 ∧
    (useStateWithHistory v capacity).value = some v ∧
    (useStateWithHistory v capacity).capacity = capacity :=
  ⟨rfl, rfl, rfl, rfl⟩

/-- C3 (counterexample): the claim as stated is false.  In the scenario
create(0, capacity 3), commit 1, commit 2, commit 3, back, commit 9, the
code yields log [1, 2, 9] with cursor 2, not log [1, 9] with cursor 1:
truncation discards only the entries strictly after the cursor, so the
entry 2 at the cursor is retained. -/
theorem claim_c3_counterexample :
    (run (useStateWithHistory (0 : Nat) 3)
      [Op.commit 1, Op.commit 2, Op.commit 3, Op.back,
        Op.commit 9]).history ≠ [1, 9] ∧
    (run (useStateWithHistory (0 : Nat) 3)
      [Op.commit 1, Op.commit 2, Op.commit 3, Op.back,
        Op.commit 9]).pointer ≠ 1 := by
  decide

/-- C3 (amended): starting from create(0, capacity 3), committing 1, 2,
3 yields log [1, 2, 3] with cursor 2 (the initial 0 evicted); back makes
the current value 2 with cursor 1; committing 9 yields log [1, 2, 9]
with cursor 2; then forward is a no-op. -/
theorem claim_c3_amended :
    run (useStateWithHistory (0 : Nat) 3)
        [Op.commit 1, Op.commit 2, Op.commit 3] =
      { value := some 3, history := [1, 2, 3], pointer := 2, capacity := 3 } ∧
    run (useStateWithHistory (0 : Nat) 3)
        [Op.commit 1, Op.commit 2, Op.commit 3, Op.back] =
      { value := some 2, history := [1, 2, 3], pointer := 1, capacity := 3 } ∧
    run (useStateWithHistory (0 : Nat) 3)
        [Op.commit 1, Op.commit 2, Op.commit 3, Op.back, Op.commit 9] =
      { value := some 9, history := [1, 2, 9], pointer := 2, capacity := 3 } ∧
    run (useStateWithHistory (0 : Nat) 3)
        [Op.commit 1, Op.commit 2, Op.commit 3, Op.back, Op.commit 9,
          Op.forward] =
      { value := some 9, history := [1, 2, 9], pointer := 2, capacity := 3 } := by
  decide

/-- C4: for every container created with capacity at least 1 and every
operation sequence, the log length stays bounded by the capacity; and
eviction only removes oldest entries: the evicted log is always a suffix
of the pre-eviction log. -/
theorem claim_c4 [DecidableEq T] (d : T) (capacity : Int)
    (hc : 1 ≤ capacity) :
    (∀ ops : List (Op T),
      ((run (useStateWithHistory d capacity) ops).history.length : Int) ≤
        capacity) ∧
    (∀ l : List T, evict capacity l <:+ l) := by
  constructor
  · intro ops
    have h := (inv_run (inv_init d capacity hc) hc ops).cap_le
    rw [run_capacity] at h
    exact h
  · exact evict_suffix capacity

/-- C4 (witness): capacity 2 bounds the log after three commits. -/
theorem claim_c4_witness :
    ((run (useStateWithHistory (0 : Nat) 2)
      [Op.commit 1, Op.commit 2, Op.commit 3]).history.length : Int) ≤ 2 :=
  (claim_c4 0 2 (by decide)).1 [Op.commit 1, Op.commit 2, Op.commit 3]

/-- C5: for every container created with capacity at least 1, in every
state reachable by any operation sequence the log is non-empty and the
cursor indexes a valid log element. -/
theorem claim_c5 [DecidableEq T] (d : T) (capacity : Int)
    (hc : 1 ≤ capacity) (ops : List (Op T)) :
    (run (useStateWithHistory d capacity) ops).history ≠ [] ∧
    0 ≤ (run (useStateWithHistory d capacity) ops).pointer ∧
    (run (useStateWithHistory d capacity) ops).pointer <
      ((run (useStateWithHistory d capacity) ops).history.length : Int) := by
  have h := inv_run (inv_init d capacity hc) hc ops
  exact ⟨h.ne, h.lb, h.ub⟩

/-- C5 (witness): the invariant after a short operation sequence. -/
theorem claim_c5_witness :
    (run (useStateWithHistory (0 : Nat) 1)
      [Op.commit 1, Op.back, Op.go 5]).history ≠ [] ∧
    0 ≤ (run (useStateWithHistory (0 : Nat) 1)
      [Op.commit 1, Op.back, Op.go 5]).pointer ∧
    (run (useStateWithHistory (0 : Nat) 1)
      [Op.commit 1, Op.back, Op.go 5]).pointer <
      ((run (useStateWithHistory (0 : Nat) 1)
        [Op.commit 1, Op.back, Op.go 5]).history.length : Int) :=
  claim_c5 0 1 (by decide) [Op.commit 1, Op.back, Op.go 5]

/-- C6: for a container with capacity at least 1, after any commit that
changes the log the cursor equals the last index of the log and the
committed value is the entry at that index. -/
theorem claim_c6 [DecidableEq T] (s : HistoryState T) (v : T)
    (hc : 1 ≤ s.capacity) (hchange : (set v s).history ≠ s.history) :
    (set v s).pointer = (((set v s).history.length : Int)) - 1 ∧
    jsGet (set v s).history ((set v s).pointer) = some v := by
  have hne : jsGet s.history s.pointer ≠ some v := fun heq => by
    apply hchange
    rw [set, if_pos heq]
  rw [set, if_neg hne]
  have hnil : evict s.capacity (truncate s ++ [v]) ≠ [] :=
    evict_ne_nil s.capacity hc _ (by simp)
  constructor
  · rfl
  · show jsGet (evict s.capacity (truncate s ++ [v]))
      (((evict s.capacity (truncate s ++ [v])).length : Int) - 1) = some v
    rw [jsGet_last _ hnil, evict_getLast _ hc, List.getLast?_concat]

/-- C6 (witness): committing 1 on a fresh container holding 0. -/
theorem claim_c6_witness :
    (set (1 : Nat) (useStateWithHistory 0 2)).pointer =
      (((set (1 : Nat) (useStateWithHistory 0 2)).history.length : Int)) - 1 ∧
    jsGet (set (1 : Nat) (useStateWithHistory 0 2)).history
      ((set (1 : Nat) (useStateWithHistory 0 2)).pointer) = some 1 :=
  claim_c6 (useStateWithHistory 0 2) 1 (by decide) (by decide)

/-- C7: from log [a, b, c, d] with cursor 1 (value b), committing x
different from b yields log [a, b, x] with cursor 2: the entries
strictly after the cursor are discarded before x is appended (stated for
capacity at least 3 so that the resulting log is within capacity, as it
is in any reachable such state). -/
theorem claim_c7 [DecidableEq T] (a b c d x : T) (capacity : Int)
    (hx : x ≠ b) (hcap : 3 ≤ capacity) :
    set x (HistoryState.mk (some b) [a, b, c, d] 1 capacity) =
      HistoryState.mk (some x) [a, b, x] 2 capacity := by
  have hne : jsGet (HistoryState.mk (some b) [a, b, c, d] 1 capacity).history
      (HistoryState.mk (some b) [a, b, c, d] 1 capacity).pointer ≠ some x := by
    show ¬jsGet [a, b, c, d] (1 : Int) = some x
    have hget : jsGet [a, b, c, d] (1 : Int) = some b := rfl
    rw [hget]
    exact fun hbx => hx (Option.some.inj hbx).symm
  have htr : truncate (HistoryState.mk (some b) [a, b, c, d] 1 capacity) =
      [a, b] := by
    show (if (1 : Int) < (([a, b, c, d] : List T).length : Int) - 1 then
        ([a, b, c, d] : List T).take ((1 : Int) + 1).toNat
      else [a, b, c, d]) = [a, b]
    norm_num
    rfl
  have hev : evict capacity ([a, b] ++ [x]) = [a, b, x] :=
    evict_eq_of_le capacity _ (by simp; omega)
  rw [set, if_neg hne, htr, hev]
  show HistoryState.mk (some x) [a, b, x]
      ((([a, b, x] : List T).length : Int) - 1) capacity =
    HistoryState.mk (some x) [a, b, x] 2 capacity
  norm_num

/-- C7 (witness): the branch-truncation example on concrete numbers. -/
theorem claim_c7_witness :
    set (99 : Nat) (HistoryState.mk (some 11) [10, 11, 12, 13] 1 3) =
      HistoryState.mk (some 99) [10, 11, 99] 2 3 :=
  claim_c7 10 11 12 13 99 3 (by decide) (by decide)

/-- C8: back at cursor 0 or below, forward at the last index or beyond,
and go with an out-of-range target are no-ops leaving the whole state
(log, cursor and visible value) unchanged; go with a valid index k moves
the cursor to k, leaves the log unchanged and makes the k-th log entry
the visible value. -/
theorem claim_c8 (s : HistoryState T) :
    (s.pointer ≤ 0 → back s = s) ∧
    ((s.history.length : Int) - 1 ≤ s.pointer → forward s = s) ∧
    (∀ i : Int, i < 0 ∨ (s.history.length : Int) - 1 < i → go i s = s) ∧
    (∀ k : Int, 0 ≤ k → k ≤ (s.history.length : Int) - 1 →
      (go k s).pointer = k ∧ (go k s).history = s.history ∧
      ∃ hk : k.toNat < s.history.length,
        (go k s).value = some (s.history.get ⟨k.toNat, hk⟩)) := by
  refine ⟨?_, ?_, ?_, ?_⟩
  · intro h
    rw [back, if_pos h]
  · intro h
    rw [forward, if_pos h]
  · intro i hi
    rw [go, if_pos hi]
  · intro k hk0 hk1
    have hcond : ¬(k < 0 ∨ k > (s.history.length : Int) - 1) := by
      push_neg
      exact ⟨hk0, hk1⟩
    rw [go, if_neg hcond]
    have hklt : k.toNat < s.history.length := by omega
    refine ⟨rfl, rfl, hklt, ?_⟩
    show jsGet s.history k = some (s.history.get ⟨k.toNat, hklt⟩)
    rw [jsGet, if_neg (by omega), List.get?_eq_get hklt]

/-- C8 (witness): back on a fresh container (cursor 0) is a no-op. -/
theorem claim_c8_witness :
    back (useStateWithHistory (5 : Nat) 10) = useStateWithHistory 5 10 :=
  (claim_c8 (useStateWithHistory 5 10)).1 (by decide)

/-- C9: in any reachable state of a container with capacity at least 1,
any sequence of back and forward calls that returns the cursor to its
original index also returns the visible value to its original value. -/
theorem claim_c9 [DecidableEq T] (d : T) (capacity : Int) (hc : 1 ≤ capacity)
    (ops navs : List (Op T)) (hnav : ∀ op ∈ navs, isNav op = true)
    (hret : (run (run (useStateWithHistory d capacity) ops) navs).pointer =
      (run (useStateWithHistory d capacity) ops).pointer) :
    (run (run (useStateWithHistory d capacity) ops) navs).value =
      (run (useStateWithHistory d capacity) ops).value := by
  have hinv := inv_run (inv_init d capacity hc) hc ops
  rw [nav_run_val navs hnav hinv.val, nav_run_history _ navs hnav, hret,
    ← hinv.val]

/-- C9 (witness): back then forward after one commit restores the
visible value. -/
theorem claim_c9_witness :
    (run (run (useStateWithHistory (0 : Nat) 2) [Op.commit 1])
      [Op.back, Op.forward]).value =
      (run (useStateWithHistory (0 : Nat) 2) [Op.commit 1]).value :=
  claim_c9 0 2 (by decide) [Op.commit 1] [Op.back, Op.forward] (by decide)
    (by decide)

/-- C10: the navigation operations back, forward and go never modify the
log (contents or length) or the capacity: only the cursor and the
visible value can change. -/
theorem claim_c10 (s : HistoryState T) :
    ((back s).history = s.history ∧ (back s).capacity = s.capacity) ∧
    ((forward s).history = s.history ∧ (forward s).capacity = s.capacity) ∧
    (∀ i : Int,
      (go i s).history = s.history ∧ (go i s).capacity = s.capacity) :=
  ⟨⟨back_history s, back_capacity s⟩,
    ⟨forward_history s, forward_capacity s⟩,
    fun i => ⟨go_history i s, go_capacity i s⟩⟩

end StateWithHistory
